import Mathlib

set_option maxHeartbeats 1000000

/-!
Verification of the goawk tree-walking interpreter (src/interp/interp.go).

The embedding below mirrors the functions of src/interp/interp.go.  The value
representation (value.go: num/str/numStr/null, asNumber, asString, asBoolean,
isTrueStr) and the record/field helpers ensureFields and setLine are part of
the repository but are not under src/; they are modelled from the spec and
marked `Modelled from the spec:` in their doc comments.  Go float64 numbers
are modelled as exact rationals (Rat); machine floating point rounding is out
of scope of the claims treated here.
-/

namespace GoAwk

/-- Modelled from the spec (section 4.1): whitespace accepted by the numeric
parser and by the whitespace field-splitting rule (space, tab, newline). -/
def isWSChar (c : Char) : Bool :=
  c = ' ' || c = '\t' || c = '\n'

/-- Hex digit test for the `0x` integer form of the numeric parser. -/
def isHexDigitC (c : Char) : Bool :=
  c.isDigit || ('a' ≤ c && c ≤ 'f') || ('A' ≤ c && c ≤ 'F')

/-- Numeric value of a hex digit. -/
def hexVal (c : Char) : Nat :=
  if c.isDigit then c.toNat - '0'.toNat
  else if 'a' ≤ c && c ≤ 'f' then c.toNat - 'a'.toNat + 10
  else c.toNat - 'A'.toNat + 10

/-- Split a character list into its longest prefix of decimal digits and the
rest. -/
def takeDigits : List Char → List Char × List Char
  | [] => ([], [])
  | c :: cs =>
    if c.isDigit then
      let (d, r) := takeDigits cs
      (c :: d, r)
    else ([], c :: cs)

/-- Split a character list into its longest prefix of hex digits and the
rest. -/
def takeHexDigits : List Char → List Char × List Char
  | [] => ([], [])
  | c :: cs =>
    if isHexDigitC c then
      let (d, r) := takeHexDigits cs
      (c :: d, r)
    else ([], c :: cs)

/-- Natural number denoted by a list of decimal digits. -/
def natOfDigits (ds : List Char) : Nat :=
  ds.foldl (fun acc c => acc * 10 + (c.toNat - '0'.toNat)) 0

/-- Natural number denoted by a list of hex digits. -/
def natOfHexDigits (ds : List Char) : Nat :=
  ds.foldl (fun acc c => acc * 16 + hexVal c) 0

/-- Modelled from the spec (section 4.1): the numeric parse accepts leading
whitespace, an optional sign, a decimal integer with optional fraction and
scientific exponent, or a hex integer `0x...`.  Returns the parsed rational
together with the unconsumed tail, or `none` when no number starts at the
front (after whitespace and sign). -/
def parseNumCore (cs : List Char) : Option (Rat × List Char) :=
  let cs1 := cs.dropWhile isWSChar
  let (neg, cs2) : Bool × List Char :=
    match cs1 with
    | '-' :: r => (true, r)
    | '+' :: r => (false, r)
    | r => (false, r)
  match cs2 with
  | '0' :: 'x' :: r =>
    let (hs, rest) := takeHexDigits r
    if hs.isEmpty then
      -- no hex digits: falls back to the decimal parse of the leading "0"
      some (0, 'x' :: r)
    else
      let v := mkRat (natOfHexDigits hs) 1
      some ((if neg then -v else v), rest)
  | _ =>
    let (ip, r1) := takeDigits cs2
    let (fp, r2) : List Char × List Char :=
      match r1 with
      | '.' :: r => takeDigits r
      | r => ([], r)
    if ip.isEmpty && fp.isEmpty then none
    else
      -- the mantissa ip.fp as a fraction of natural numbers
      let base := natOfDigits ip * 10 ^ fp.length + natOfDigits fp
      let den := 10 ^ fp.length
      let rest := if fp.isEmpty then r1 else r2
      match rest with
      | 'e' :: r3 | 'E' :: r3 =>
        let (esgn, r4) : Bool × List Char :=
          match r3 with
          | '-' :: r => (true, r)
          | '+' :: r => (false, r)
          | r => (false, r)
        let (es, r5) := takeDigits r4
        if es.isEmpty then
          -- the exponent marker is not consumed without digits
          let q := mkRat base den
          some ((if neg then -q else q), rest)
        else
          let e := natOfDigits es
          let q := if esgn then mkRat base (den * 10 ^ e) else mkRat (base * 10 ^ e) den
          some ((if neg then -q else q), r5)
      | _ =>
        let q := mkRat base den
        some ((if neg then -q else q), rest)

/-- Modelled from the spec (sections 3, 4.1): the "parses cleanly as a number"
test used for numeric strings; a trailing non-numeric tail means "not a
number". -/
def parseNumClean (s : String) : Option Rat :=
  match parseNumCore s.toList with
  | some (q, []) => some q
  | _ => none

/-- Modelled from the spec (section 4.1): string-to-number coercion takes the
longest numeric prefix, and 0 when there is none. -/
def leadNum (s : String) : Rat :=
  match parseNumCore s.toList with
  | some (q, _) => q
  | none => 0

/-- Modelled from the spec (section 3): the tagged scalar value of value.go
(not under src/): null, number, explicit string, numeric string. -/
inductive Value where
  | null
  | num (n : Rat)
  | str (s : String)
  | numStr (s : String)
deriving DecidableEq, Repr

/-- Modelled from the spec (section 4.1): asNumber; null coerces to 0,
strings by longest numeric prefix. -/
def Value.asNumber : Value → Rat
  | .null => 0
  | .num n => n
  | .str s => leadNum s
  | .numStr s => leadNum s

/-- Modelled from the spec (section 4.1): number-to-string conversion.
Integers print without decimals.  The `%.6g`-style formatting of non-integral
numbers is modelled as sign, integer part and six (floored) fractional
digits; the exact `%g` rounding and scientific form are not modelled, and no
claim below depends on the exact non-integral form.  The format argument
(CONVFMT/OFMT) is assumed to keep its `%.6g`-style meaning. -/
def formatNum (_fmt : String) (q : Rat) : String :=
  if q.den = 1 then toString q.num
  else
    let an : Nat := q.num.natAbs
    let d : Nat := q.den
    let ip : Nat := an / d
    let fr : Nat := (an % d) * 1000000 / d
    let fs : String := toString fr
    let pad : String := String.mk (List.replicate (6 - fs.length) '0')
    (if q < 0 then "-" else "") ++ toString ip ++ "." ++ pad ++ fs

/-- Modelled from the spec (section 4.1): asString(v, fmt); null coerces to
the empty string, both string variants keep their text, numbers are
formatted. -/
def Value.asString (v : Value) (fmt : String) : String :=
  match v with
  | .null => ""
  | .num n => formatNum fmt n
  | .str s => s
  | .numStr s => s

/-- Modelled from the spec (sections 3, 4.1): isTrueStr(v) returns the
numeric view of v together with a flag telling whether v must be compared as
a string.  A numeric string is a "true string" exactly when it does not parse
cleanly as a number. -/
def Value.isTrueStr : Value → Rat × Bool
  | .null => (0, false)
  | .num n => (n, false)
  | .str s => (leadNum s, true)
  | .numStr s =>
    match parseNumClean s with
    | some q => (q, false)
    | none => (leadNum s, true)

/-- Modelled from the spec (section 4.1): asBoolean; numbers are true when
non-zero, strings when non-empty, null is false. -/
def Value.asBoolean : Value → Bool
  | .null => false
  | .num n => decide (n ≠ 0)
  | .str s => decide (s ≠ "")
  | .numStr s => decide (s ≠ "")

/-- The boolean helper of interp.go: 1 for true, 0 for false. -/
def boolean (b : Bool) : Value :=
  if b then .num 1 else .num 0

/-- Go `int(f)` conversion: truncation toward zero, as used by interp.go for
field indexes, NF, NR and friends. -/
def truncToInt (q : Rat) : Int :=
  Int.tdiv q.num (q.den : Int)

/-! ### Arrays (interp.go: getArrayValue, setArrayValue, InExpr, DeleteStmt) -/

/-- An AWK associative array, modelled as an association list from string
keys to values (insertion order irrelevant for the claims below). -/
def AwkArray := List (String × Value)
deriving DecidableEq, Repr

/-- Map lookup `v, ok := array[index]`. -/
def alookup (arr : AwkArray) (k : String) : Option Value :=
  match arr with
  | [] => none
  | (k', v) :: rest => if k' = k then some v else alookup rest k

/-- Map store `array[index] = v`. -/
def aset (arr : AwkArray) (k : String) (v : Value) : AwkArray :=
  match arr with
  | [] => [(k, v)]
  | (k', v') :: rest => if k' = k then (k, v) :: rest else (k', v') :: aset rest k v

/-- Map delete `delete(array, k)` (does nothing if the key is absent). -/
def aerase (arr : AwkArray) (k : String) : AwkArray :=
  arr.filter (fun p => !(p.1 == k))

/-- interp.go getArrayValue: reading a key that is absent stores the Go zero
value (the null value) under that key and returns it; a present key is
returned unchanged.  The possibly-updated array is returned alongside the
value. -/
def getArrayValue (arr : AwkArray) (index : String) : Value × AwkArray :=
  match alookup arr index with
  | some v => (v, arr)
  | none => (Value.null, aset arr index Value.null)

/-- interp.go eval, ast.InExpr case: `key in array` only looks the key up;
the array is returned untouched. -/
def inExprEval (arr : AwkArray) (index : String) : Value × AwkArray :=
  (boolean (alookup arr index).isSome, arr)

/-! ### Binary operations (interp.go: evalBinary)

The MATCH/NOT_MATCH (regex) and POW (float math.Pow) operators are omitted:
regular-expression matching and transcendental float operations are outside
this shallow embedding, and no claim below concerns them. -/

/-- The lexer tokens of the binary operators handled by evalBinary. -/
inductive BinOp where
  | ADD | SUB | EQUALS | LESS | LTE | CONCAT | MUL | DIV | GREATER | GTE
  | NOT_EQUALS | MOD
deriving DecidableEq, Repr

/-- interp.go evalBinary: AWK comparison dispatch (string comparison if
either side is a true string, numeric otherwise), arithmetic on the numeric
views, division and modulo guarded against a zero divisor.  `convfmt` is the
current CONVFMT used by toString. -/
def evalBinary (convfmt : String) (op : BinOp) (l r : Value) : Except String Value :=
  match op with
  | .ADD => .ok (.num (l.asNumber + r.asNumber))
  | .SUB => .ok (.num (l.asNumber - r.asNumber))
  | .EQUALS =>
    let (ln, lIsStr) := l.isTrueStr
    let (rn, rIsStr) := r.isTrueStr
    if lIsStr || rIsStr then
      .ok (boolean (l.asString convfmt == r.asString convfmt))
    else
      .ok (boolean (ln == rn))
  | .LESS =>
    let (ln, lIsStr) := l.isTrueStr
    let (rn, rIsStr) := r.isTrueStr
    if lIsStr || rIsStr then
      .ok (boolean (decide (l.asString convfmt < r.asString convfmt)))
    else
      .ok (boolean (decide (ln < rn)))
  | .LTE =>
    let (ln, lIsStr) := l.isTrueStr
    let (rn, rIsStr) := r.isTrueStr
    if lIsStr || rIsStr then
      .ok (boolean (decide (l.asString convfmt ≤ r.asString convfmt)))
    else
      .ok (boolean (decide (ln ≤ rn)))
  | .CONCAT => .ok (.str (l.asString convfmt ++ r.asString convfmt))
  | .MUL => .ok (.num (l.asNumber * r.asNumber))
  | .DIV =>
    let rf := r.asNumber
    if rf = 0 then .error "division by zero"
    else .ok (.num (l.asNumber / rf))
  | .GREATER =>
    let (ln, lIsStr) := l.isTrueStr
    let (rn, rIsStr) := r.isTrueStr
    if lIsStr || rIsStr then
      .ok (boolean (decide (r.asString convfmt < l.asString convfmt)))
    else
      .ok (boolean (decide (rn < ln)))
  | .GTE =>
    let (ln, lIsStr) := l.isTrueStr
    let (rn, rIsStr) := r.isTrueStr
    if lIsStr || rIsStr then
      .ok (boolean (decide (r.asString convfmt ≤ l.asString convfmt)))
    else
      .ok (boolean (decide (rn ≤ ln)))
  | .NOT_EQUALS =>
    let (ln, lIsStr) := l.isTrueStr
    let (rn, rIsStr) := r.isTrueStr
    if lIsStr || rIsStr then
      .ok (boolean (l.asString convfmt != r.asString convfmt))
    else
      .ok (boolean (ln != rn))
  | .MOD =>
    let rf := r.asNumber
    if rf = 0 then .error "division by zero in mod"
    else .ok (.num (l.asNumber - (truncToInt (l.asNumber / rf) : Rat) * rf))

/-! ### Record/field engine (interp.go: getField, setField, setVar NF case;
ensureFields and setLine modelled from the spec) -/

/-- interp.go maxFieldIndex constant. -/
def maxFieldIndex : Int := 1000000

/-- The record/field portion of the interpreter state (interp.go fields
line, lineIsTrueStr, fields, fieldsIsTrueStr, numFields, haveFields,
fieldSep, outputFieldSep). -/
structure FieldState where
  line : String
  lineIsTrueStr : Bool
  fields : List String
  fieldsIsTrueStr : List Bool
  numFields : Nat
  haveFields : Bool
  fieldSep : String
  outputFieldSep : String
deriving DecidableEq, Repr

/-- Helper for whitespace field splitting: words of a character list,
separated by runs of whitespace (the accumulator holds the current word in
reverse). -/
def wordsAux (acc : List Char) : List Char → List (List Char)
  | [] => if acc.isEmpty then [] else [acc.reverse]
  | c :: rest =>
    if isWSChar c then
      if acc.isEmpty then wordsAux [] rest
      else acc.reverse :: wordsAux [] rest
    else wordsAux (c :: acc) rest

/-- Helper for single-character field splitting: split at every occurrence
of the separator (empty fields are kept). -/
def splitOn1 (sep : Char) : List Char → List (List Char)
  | [] => [[]]
  | c :: rest =>
    let r := splitOn1 sep rest
    if c = sep then [] :: r
    else
      match r with
      | g :: gs => (c :: g) :: gs
      | [] => [[c]]

/-- Modelled from the spec (section 4.6): field-split rules.  Whitespace mode
for `FS == " "` (collapse runs, strip leading and trailing); literal
single-character split otherwise; an empty record has no fields.  The regex
mode of a multi-character FS is approximated as a literal-string separator
would be by its first character; no claim below exercises a multi-character
FS. -/
def splitFields (line sep : String) : List String :=
  if line = "" then []
  else if sep = " " then (wordsAux [] line.toList).map (fun w => String.mk w)
  else
    match sep.toList with
    | c :: _ => (splitOn1 c line.toList).map (fun w => String.mk w)
    | [] => [line]

/-- Modelled from the spec (section 4.6): lazy field split; fields are
populated from the current record on first access after a record change, and
fields obtained from a split are numeric strings. -/
def ensureFields (s : FieldState) : FieldState :=
  if s.haveFields then s
  else
    let fs := splitFields s.line s.fieldSep
    { s with
      fields := fs
      fieldsIsTrueStr := List.replicate fs.length false
      numFields := fs.length
      haveFields := true }

/-- Modelled from the spec (section 4.6): setLine(s, trueStr) replaces the
record and invalidates the fields, which are re-split on demand. -/
def setLine (s : FieldState) (line : String) (isTrueStr : Bool) : FieldState :=
  { s with line := line, lineIsTrueStr := isTrueStr, haveFields := false }

/-- interp.go getField: `$index`.  A negative index is an error; index 0 is
the whole record; an index beyond the current fields yields the explicit
empty string; otherwise the stored field with its numeric-string status. -/
def getField (s : FieldState) (index : Int) : Except String (Value × FieldState) :=
  if index < 0 then .error ("field index negative: " ++ toString index)
  else if index = 0 then
    .ok ((if s.lineIsTrueStr then .str s.line else .numStr s.line), s)
  else
    let s := ensureFields s
    let i := index.toNat
    if s.fields.length < i then .ok (.str "", s)
    else
      let f := s.fields.getD (i - 1) ""
      .ok ((if s.fieldsIsTrueStr.getD (i - 1) false then .str f else .numStr f), s)

/-- interp.go setField: `$index = value`.  Index 0 replaces the record via
setLine; a negative index or an index beyond maxFieldIndex is an error;
otherwise missing fields up to the index are padded with empty strings, the
field is stored as an explicit string, NF is updated and the record is
rejoined with OFS. -/
def setField (s : FieldState) (index : Int) (v : String) : Except String FieldState :=
  if index = 0 then .ok (setLine s v true)
  else if index < 0 then .error ("field index negative: " ++ toString index)
  else if index > maxFieldIndex then .error ("field index too large: " ++ toString index)
  else
    let s := ensureFields s
    let i := index.toNat
    let padded := s.fields ++ List.replicate (i - s.fields.length) ""
    let paddedT := s.fieldsIsTrueStr ++ List.replicate (i - s.fieldsIsTrueStr.length) true
    let fields' := padded.set (i - 1) v
    let fieldsT' := paddedT.set (i - 1) true
    .ok { s with
      fields := fields'
      fieldsIsTrueStr := fieldsT'
      numFields := fields'.length
      line := String.intercalate s.outputFieldSep fields'
      lineIsTrueStr := true }

/-- interp.go setVar, ast.V_NF case: assigning NF.  A negative or too-large
value is an error; otherwise the fields are truncated or padded with empty
strings to the new count and the record is rejoined with OFS. -/
def setNF (s : FieldState) (v : Value) : Except String FieldState :=
  let nf := truncToInt v.asNumber
  if nf < 0 then .error ("NF set to negative value: " ++ toString nf)
  else if nf > maxFieldIndex then .error ("NF set too large: " ++ toString nf)
  else
    let s := ensureFields s
    let n := nf.toNat
    let fields' :=
      if n < s.fields.length then s.fields.take n
      else s.fields ++ List.replicate (n - s.fields.length) ""
    let fieldsT' :=
      if n < s.fieldsIsTrueStr.length then s.fieldsIsTrueStr.take n
      else s.fieldsIsTrueStr ++ List.replicate (n - s.fieldsIsTrueStr.length) false
    .ok { s with
      numFields := n
      fields := fields'
      fieldsIsTrueStr := fieldsT'
      line := String.intercalate s.outputFieldSep fields'
      lineIsTrueStr := true }

/-! ### Getline (interp.go: eval, ast.GetlineExpr case)

The I/O collaborators (getInputScannerPipe, getInputScannerFile, nextLine)
are not under src/; their possible outcomes are modelled from the spec as
explicit outcome values fed to the branch structure of the GetlineExpr case,
which is ported from the source. -/

/-- Outcome of one bufio.Scanner read: a line, end of input, or a scanner
read error. -/
inductive ScanOutcome where
  | gotLine (s : String)
  | eofScan
  | scanErr
deriving DecidableEq, Repr

/-- Outcome of opening a named input file: an open scanner, an
os.PathError (file not found), or another open error (for example a sandbox
violation), which interp.go treats as a hard error. -/
inductive FileOpenOutcome where
  | openedF (scan : ScanOutcome)
  | pathErr
  | openErr (msg : String)
deriving DecidableEq, Repr

/-- Outcome of opening a command pipe: an open scanner or a hard open
error. -/
inductive PipeOpenOutcome where
  | openedP (scan : ScanOutcome)
  | pipeErr (msg : String)
deriving DecidableEq, Repr

/-- Outcome of reading the next record from the main input. -/
inductive MainReadOutcome where
  | gotRec (s : String)
  | eofMain
  | readErrMain
deriving DecidableEq, Repr

/-- The three syntactic forms of a getline expression, with the outcome of
their input source. -/
inductive GetlineForm where
  | fromCommand (o : PipeOpenOutcome)
  | fromFile (o : FileOpenOutcome)
  | fromMain (o : MainReadOutcome)
deriving DecidableEq, Repr

/-- Shared tail of the command and file getline forms: a scanner read
error yields -1, end of input yields 0, and a read line yields 1 after the
target (if any) receives the line as a numeric string, or the record is
replaced by it. -/
def getlineFinish (scan : ScanOutcome) (hasTarget : Bool) (st : FieldState) :
    Except String (Value × FieldState × Option String) :=
  match scan with
  | .scanErr => .ok (.num (-1), st, none)
  | .eofScan => .ok (.num 0, st, none)
  | .gotLine s =>
    if hasTarget then .ok (.num 1, st, some s)
    else .ok (.num 1, setLine st s false, none)

/-- interp.go eval, ast.GetlineExpr case.  The returned Option String is the
numeric-string text assigned to the target variable, when there is one. -/
def evalGetline (form : GetlineForm) (hasTarget : Bool) (st : FieldState) :
    Except String (Value × FieldState × Option String) :=
  match form with
  | .fromCommand o =>
    match o with
    | .pipeErr msg => .error msg
    | .openedP scan => getlineFinish scan hasTarget st
  | .fromFile o =>
    match o with
    | .pathErr =>
      -- File not found is not a hard error, getline just returns -1
      .ok (.num (-1), st, none)
    | .openErr msg => .error msg
    | .openedF scan => getlineFinish scan hasTarget st
  | .fromMain o =>
    match o with
    | .eofMain => .ok (.num 0, st, none)
    | .readErrMain => .ok (.num (-1), st, none)
    | .gotRec s =>
      if hasTarget then .ok (.num 1, st, some s)
      else .ok (.num 1, setLine st s false, none)

/-! ### Special variables (interp.go: setVar ScopeSpecial cases,
setVarByName, execInit Vars loop) -/

/-- The fixed special-variable set. -/
inductive SpecialVar where
  | NF | NR | FNR | FS | RS | OFS | ORS | CONVFMT | OFMT | SUBSEP
  | FILENAME | ARGC | RSTART | RLENGTH | RT
deriving DecidableEq, Repr

/-- The name of each special variable. -/
def svName : SpecialVar → String
  | .NF => "NF"
  | .NR => "NR"
  | .FNR => "FNR"
  | .FS => "FS"
  | .RS => "RS"
  | .OFS => "OFS"
  | .ORS => "ORS"
  | .CONVFMT => "CONVFMT"
  | .OFMT => "OFMT"
  | .SUBSEP => "SUBSEP"
  | .FILENAME => "FILENAME"
  | .ARGC => "ARGC"
  | .RSTART => "RSTART"
  | .RLENGTH => "RLENGTH"
  | .RT => "RT"

/-- The fixed list of all special variables. -/
def allSpecialVars : List SpecialVar :=
  [.NF, .NR, .FNR, .FS, .RS, .OFS, .ORS, .CONVFMT, .OFMT, .SUBSEP,
   .FILENAME, .ARGC, .RSTART, .RLENGTH, .RT]

/-- ast.SpecialVarIndex: name to special variable, none when the name is not
special. -/
def specialVarOf (name : String) : Option SpecialVar :=
  allSpecialVars.find? (fun sv => svName sv == name)

/-- The interpreter state visible to setVarByName: the record/field engine,
the remaining built-in variables, and the global scalar table (scalars holds
the names referenced by the program, globals the values, by position). -/
structure InterpState where
  fieldState : FieldState
  lineNum : Int
  fileLineNum : Int
  matchLength : Int
  matchStart : Int
  argc : Int
  convertFormat : String
  outputFormat : String
  recordSep : String
  outputRecordSep : String
  subscriptSep : String
  recordTerminator : String
  filename : Value
  scalars : List String
  globals : List Value
deriving DecidableEq, Repr

/-- interp.go setVar, ScopeSpecial branch.  `regexOK` stands for Go's
regexp.Compile succeeding on its argument (the regexp package is external to
the repository).  Note: where Go mutates a field and then reports a compile
error, the model reports the error without the mutation; no claim observes
the state after a failed assignment. -/
def setVarSpecial (regexOK : String → Bool) (st : InterpState) (sv : SpecialVar)
    (v : Value) : Except String InterpState :=
  match sv with
  | .NF =>
    match setNF st.fieldState v with
    | .error e => .error e
    | .ok fs => .ok { st with fieldState := fs }
  | .NR => .ok { st with lineNum := truncToInt v.asNumber }
  | .RLENGTH => .ok { st with matchLength := truncToInt v.asNumber }
  | .RSTART => .ok { st with matchStart := truncToInt v.asNumber }
  | .FNR => .ok { st with fileLineNum := truncToInt v.asNumber }
  | .ARGC => .ok { st with argc := truncToInt v.asNumber }
  | .CONVFMT => .ok { st with convertFormat := v.asString st.convertFormat }
  | .FILENAME => .ok { st with filename := v }
  | .FS =>
    let fsep := v.asString st.convertFormat
    if fsep.length > 1 && !(regexOK fsep) then
      .error ("invalid regex: " ++ fsep)
    else
      .ok { st with fieldState := { st.fieldState with fieldSep := fsep } }
  | .OFMT => .ok { st with outputFormat := v.asString st.convertFormat }
  | .OFS =>
    .ok { st with fieldState :=
      { st.fieldState with outputFieldSep := v.asString st.convertFormat } }
  | .ORS => .ok { st with outputRecordSep := v.asString st.convertFormat }
  | .RS =>
    let rsep := v.asString st.convertFormat
    if rsep.utf8ByteSize ≤ 1 then
      -- simple cases use specialized splitters, not regex
      .ok { st with recordSep := rsep }
    else if rsep.length = 1 then
      -- multi-byte unicode char falls back to a quoted (always valid) regex
      .ok { st with recordSep := rsep }
    else if !(regexOK rsep) then
      .error ("invalid regex: " ++ rsep)
    else
      .ok { st with recordSep := rsep }
  | .RT => .ok { st with recordTerminator := v.asString st.convertFormat }
  | .SUBSEP => .ok { st with subscriptSep := v.asString st.convertFormat }

/-- interp.go setVarByName: a special name is assigned as a special variable,
a scalar name referenced by the program is assigned as a global, and any
other name is silently ignored. -/
def setVarByName (regexOK : String → Bool) (st : InterpState) (name v : String) :
    Except String InterpState :=
  match specialVarOf name with
  | some sv => setVarSpecial regexOK st sv (.numStr v)
  | none =>
    match st.scalars.findIdx? (· == name) with
    | some i => .ok { st with globals := st.globals.set i (.numStr v) }
    | none =>
      -- Ignore variables that aren't defined in program
      .ok st

/-! ### For-in iteration (interp.go: execute, ast.ForInStmt case)

The source iterates `for index := range array` over the live Go map.  Per the
Go specification, a map entry removed before being reached is not produced,
and an entry added during iteration may or may not be produced.  The model
below takes the iteration order as an explicit parameter (Go leaves it
unspecified) over the keys present at loop entry and checks liveness against
the current array before each visit; the body is an arbitrary array
transformer. -/

/-- One for-in execution: visit each key of `order` that is still present in
the live array, run the body on the array, and record the visited keys. -/
def forInVisit (body : String → AwkArray → AwkArray) :
    List String → AwkArray → List String → AwkArray × List String
  | [], arr, visited => (arr, visited)
  | k :: rest, arr, visited =>
    if (alookup arr k).isSome then
      forInVisit body rest (body k arr) (visited ++ [k])
    else
      forInVisit body rest arr visited

/-! ### Control flow (interp.go: ExecProgram, execBeginEnd, execActions,
executes, execute)

The statement executor is ported from interp.go.  Errors are the Go error
values: the four sentinels (errExit, errBreak, errContinue, errNext), the
returnValue wrapper, and runtime errors.  Expressions are modelled as state
transformers returning a value or an error: the claim under test concerns
the statement-level consumption of sentinels, and the hypotheses on the
expression transformers state exactly what the parser and callUser guarantee
(break/continue cannot occur inside expressions, returnValue is caught by
callUser, a function called from an expression may surface errNext or
errExit).  Statement execution returns the mutated state together with the
Go error, mirroring in-place mutation. -/

/-- The Go error values returned by execute/eval: the control-flow sentinels,
the returnValue wrapper, and interpreter runtime errors. -/
inductive ExecErr where
  | errExit
  | errBreak
  | errContinue
  | errNext
  | retVal (v : Value)
  | runtime (msg : String)
deriving DecidableEq, Repr

/-- The mutable interpreter state seen by the statement executor: exit
status, the global arrays, a scalar store, and the current record. -/
structure MState where
  exitStatus : Int
  arrays : List AwkArray
  vars : AwkArray
  line : String
deriving DecidableEq, Repr

/-- An expression, as a state transformer (see the section comment). -/
def ExprF := MState → Except ExecErr Value × MState

/-- The statement forms of interp.go's execute.  The pre-statement of a
C-style for loop is desugared by sequencing it before the loop (it runs
exactly once in the source); print statements only touch I/O and are not
modelled. -/
inductive Stmt where
  | exprStmt (e : ExprF)
  | ifStmt (cond : ExprF) (body els : List Stmt)
  | whileStmt (cond : ExprF) (body : List Stmt)
  | doWhileStmt (body : List Stmt) (cond : ExprF)
  | forStmt (cond : Option ExprF) (post : Option Stmt) (body : List Stmt)
  | forInStmt (varName : String) (arrIdx : Nat) (body : List Stmt)
  | breakStmt
  | continueStmt
  | nextStmt
  | exitStmt (status : Option ExprF)
  | returnStmt (val : Option ExprF)
  | blockStmt (body : List Stmt)
  | deleteStmt (arrIdx : Nat) (key : Option ExprF)

mutual

/-- interp.go execute, one statement.  Fuel bounds the number of loop
iterations; exhausted fuel is reported as a runtime error. -/
def execStmt : Nat → Stmt → MState → Option ExecErr × MState
  | 0, _, st => (some (.runtime "out of fuel"), st)
  | f + 1, stmt, st =>
    match stmt with
    | .exprStmt e =>
      match e st with
      | (.ok _, st') => (none, st')
      | (.error err, st') => (some err, st')
    | .ifStmt cond body els =>
      match cond st with
      | (.error err, st') => (some err, st')
      | (.ok v, st') =>
        if v.asBoolean then execStmts f body st' else execStmts f els st'
    | .whileStmt cond body =>
      match cond st with
      | (.error err, st') => (some err, st')
      | (.ok v, st') =>
        if v.asBoolean then
          match execStmts f body st' with
          | (some .errBreak, st2) => (none, st2)
          | (some .errContinue, st2) => execStmt f (.whileStmt cond body) st2
          | (none, st2) => execStmt f (.whileStmt cond body) st2
          | (some err, st2) => (some err, st2)
        else (none, st')
    | .doWhileStmt body cond =>
      match execStmts f body st with
      | (some .errBreak, st2) => (none, st2)
      | (some .errContinue, st2) => execStmt f (.doWhileStmt body cond) st2
      | (some err, st2) => (some err, st2)
      | (none, st2) =>
        match cond st2 with
        | (.error err, st3) => (some err, st3)
        | (.ok v, st3) =>
          if v.asBoolean then execStmt f (.doWhileStmt body cond) st3
          else (none, st3)
    | .forStmt cond post body =>
      match
        (match cond with
         | none => (Except.ok true, st)
         | some c =>
           match c st with
           | (.error err, st') => (Except.error err, st')
           | (.ok v, st') => (Except.ok v.asBoolean, st')) with
      | (.error err, st') => (some err, st')
      | (.ok false, st') => (none, st')
      | (.ok true, st') =>
        match execStmts f body st' with
        | (some .errBreak, st2) => (none, st2)
        | (some .errContinue, st2) => execForPost f cond post body st2
        | (none, st2) => execForPost f cond post body st2
        | (some err, st2) => (some err, st2)
    | .forInStmt varName arrIdx body =>
      execForIn f ((st.arrays.getD arrIdx []).map Prod.fst) varName arrIdx body st
    | .breakStmt => (some .errBreak, st)
    | .continueStmt => (some .errContinue, st)
    | .nextStmt => (some .errNext, st)
    | .exitStmt status =>
      match status with
      | none => (some .errExit, st)
      | some e =>
        match e st with
        | (.error err, st') => (some err, st')
        | (.ok v, st') =>
          (some .errExit, { st' with exitStatus := truncToInt v.asNumber })
    | .returnStmt val =>
      match val with
      | none => (some (.retVal .null), st)
      | some e =>
        match e st with
        | (.error err, st') => (some err, st')
        | (.ok v, st') => (some (.retVal v), st')
    | .blockStmt body => execStmts f body st
    | .deleteStmt arrIdx key =>
      match key with
      | none => (none, { st with arrays := st.arrays.set arrIdx [] })
      | some e =>
        match e st with
        | (.error err, st') => (some err, st')
        | (.ok v, st') =>
          let arr' := aerase (st'.arrays.getD arrIdx []) (v.asString "%.6g")
          (none, { st' with arrays := st'.arrays.set arrIdx arr' })

/-- interp.go executes: run statements in order, stopping at the first
non-nil error. -/
def execStmts : Nat → List Stmt → MState → Option ExecErr × MState
  | 0, _, st => (some (.runtime "out of fuel"), st)
  | _ + 1, [], st => (none, st)
  | f + 1, s :: rest, st =>
    match execStmt f s st with
    | (none, st') => execStmts f rest st'
    | (some err, st') => (some err, st')

/-- The post-statement and back edge of a C-style for loop: errors of the
post-statement propagate; continue of a C-style for targets the
post-statement, not the condition. -/
def execForPost : Nat → Option ExprF → Option Stmt → List Stmt → MState →
    Option ExecErr × MState
  | 0, _, _, _, st => (some (.runtime "out of fuel"), st)
  | f + 1, cond, post, body, st =>
    match post with
    | none => execStmt f (.forStmt cond post body) st
    | some ps =>
      match execStmt f ps st with
      | (some err, st') => (some err, st')
      | (none, st') => execStmt f (.forStmt cond post body) st'

/-- interp.go execute, ast.ForInStmt case: iterate the keys, skipping keys no
longer present in the live array (Go map range), binding the loop variable,
and consuming break and continue. -/
def execForIn : Nat → List String → String → Nat → List Stmt → MState →
    Option ExecErr × MState
  | 0, _, _, _, _, st => (some (.runtime "out of fuel"), st)
  | _ + 1, [], _, _, _, st => (none, st)
  | f + 1, k :: rest, varName, arrIdx, body, st =>
    if (alookup (st.arrays.getD arrIdx []) k).isSome then
      let st' := { st with vars := aset st.vars varName (.str k) }
      match execStmts f body st' with
      | (some .errBreak, st2) => (none, st2)
      | (some .errContinue, st2) => execForIn f rest varName arrIdx body st2
      | (some err, st2) => (some err, st2)
      | (none, st2) => execForIn f rest varName arrIdx body st2
    else
      execForIn f rest varName arrIdx body st

end

/-- A pattern-action block: an optional single-expression pattern (a missing
pattern always matches; range patterns behave identically with respect to
sentinel consumption and are not separately modelled) and an optional body
(a missing body prints the record, which only touches I/O). -/
structure ActionA where
  pattern : Option ExprF
  body : Option (List Stmt)

/-- interp.go execActions, inner loop: run every pattern-action block for the
current record; an errNext from a body is returned to the record loop. -/
def execOneRecord : Nat → List ActionA → MState → Option ExecErr × MState
  | 0, _, st => (some (.runtime "out of fuel"), st)
  | _ + 1, [], st => (none, st)
  | f + 1, a :: rest, st =>
    match
      (match a.pattern with
       | none => (Except.ok true, st)
       | some c =>
         match c st with
         | (.error err, st') => (Except.error err, st')
         | (.ok v, st') => (Except.ok v.asBoolean, st')) with
    | (.error err, st') => (some err, st')
    | (.ok false, st') => execOneRecord f rest st'
    | (.ok true, st') =>
      match a.body with
      | none => execOneRecord f rest st'
      | some body =>
        match execStmts f body st' with
        | (some .errNext, st2) => (some .errNext, st2)
        | (some err, st2) => (some err, st2)
        | (none, st2) => execOneRecord f rest st2

/-- interp.go execActions, record loop: read each record, run the blocks,
and consume the errNext sentinel by skipping to the next record. -/
def execActions : Nat → List ActionA → List String → MState →
    Option ExecErr × MState
  | 0, _, _, st => (some (.runtime "out of fuel"), st)
  | _ + 1, _, [], st => (none, st)
  | f + 1, actions, r :: rs, st =>
    match execOneRecord f actions { st with line := r } with
    | (some .errNext, st') => execActions f actions rs st'
    | (some err, st') => (some err, st')
    | (none, st') => execActions f actions rs st'

/-- interp.go execBeginEnd: run each BEGIN (or END) block in order. -/
def execBeginEnd : Nat → List (List Stmt) → MState → Option ExecErr × MState
  | 0, _, st => (some (.runtime "out of fuel"), st)
  | _ + 1, [], st => (none, st)
  | f + 1, blk :: rest, st =>
    match execStmts f blk st with
    | (none, st') => execBeginEnd f rest st'
    | (some err, st') => (some err, st')

/-- A program for the top-level executor: BEGIN blocks, pattern-action
blocks, END blocks. -/
structure ProgP where
  beginBlocks : List (List Stmt)
  actions : List ActionA
  endBlocks : List (List Stmt)

/-- interp.go ExecProgram: BEGIN, then the record loop (skipped after an
exit in BEGIN), then END; the errExit sentinel is consumed at each stage and
the exit status is returned.  On error the returned status is 0. -/
def execProgramM (f : Nat) (pr : ProgP) (records : List String) (st : MState) :
    Option ExecErr × Int × MState :=
  match execBeginEnd f pr.beginBlocks st with
  | (err1, st1) =>
    if err1.isSome && err1 ≠ some .errExit then (err1, 0, st1)
    else if pr.actions.isEmpty && pr.endBlocks.isEmpty then (none, st1.exitStatus, st1)
    else
      match (if err1 ≠ some .errExit
             then execActions f pr.actions records st1
             else (none, st1)) with
      | (err2, st2) =>
        if err2.isSome && err2 ≠ some .errExit then (err2, 0, st2)
        else
          match execBeginEnd f pr.endBlocks st2 with
          | (err3, st3) =>
            if err3.isSome && err3 ≠ some .errExit then (err3, 0, st3)
            else (none, st3.exitStatus, st3)

/-- The control-flow sentinels (and the returnValue wrapper): the errors that
must never leak out of ExecProgram. -/
def isSentinelErr : ExecErr → Bool
  | .errExit => true
  | .errBreak => true
  | .errContinue => true
  | .errNext => true
  | .retVal _ => true
  | .runtime _ => false

/-- Whether an optional returned error is a leaked sentinel. -/
def leakedSentinel : Option ExecErr → Bool
  | some e => isSentinelErr e
  | none => false

/-- Which errors an expression may surface: runtime errors always; errExit
(via a user function that executes exit) always; errNext (via a user function
that executes next) only where next is allowed; never break, continue or a
returnValue (the parser forbids the former inside expressions and callUser
consumes the latter). -/
def errOKExpr (allowNext : Bool) : ExecErr → Prop
  | .errBreak => False
  | .errContinue => False
  | .retVal _ => False
  | .errNext => allowNext = true
  | .errExit => True
  | .runtime _ => True

/-- Well-formedness of an expression transformer: every error it surfaces is
allowed by errOKExpr. -/
def exprOK (allowNext : Bool) (e : ExprF) : Prop :=
  ∀ st err st', e st = (.error err, st') → errOKExpr allowNext err

mutual

/-- Well-formedness of a statement, as guaranteed by the parser: break and
continue appear only inside loops, next only where allowed (action bodies),
and return only inside function bodies (never in the statement lists run by
the top-level executor, where callUser is not on the stack). -/
def wfStmt (allowNext inLoop : Bool) : Stmt → Prop
  | .exprStmt e => exprOK allowNext e
  | .ifStmt cond body els =>
    exprOK allowNext cond ∧ wfStmts allowNext inLoop body ∧ wfStmts allowNext inLoop els
  | .whileStmt cond body => exprOK allowNext cond ∧ wfStmts allowNext true body
  | .doWhileStmt body cond => exprOK allowNext cond ∧ wfStmts allowNext true body
  | .forStmt cond post body =>
    (match cond with
     | none => True
     | some c => exprOK allowNext c) ∧
    (match post with
     | none => True
     | some ps => wfStmt allowNext inLoop ps) ∧
    wfStmts allowNext true body
  | .forInStmt _ _ body => wfStmts allowNext true body
  | .breakStmt => inLoop = true
  | .continueStmt => inLoop = true
  | .nextStmt => allowNext = true
  | .exitStmt status =>
    match status with
    | none => True
    | some e => exprOK allowNext e
  | .returnStmt _ => False
  | .blockStmt body => wfStmts allowNext inLoop body
  | .deleteStmt _ key =>
    match key with
    | none => True
    | some e => exprOK allowNext e

/-- Well-formedness of a statement list. -/
def wfStmts (allowNext inLoop : Bool) : List Stmt → Prop
  | [] => True
  | s :: rest => wfStmt allowNext inLoop s ∧ wfStmts allowNext inLoop rest

end

/-- Which errors a statement may return: runtime and errExit always, errNext
only where allowed, break and continue only inside a loop, a returnValue
never. -/
def errOKStmt (allowNext inLoop : Bool) : ExecErr → Prop
  | .errBreak => inLoop = true
  | .errContinue => inLoop = true
  | .retVal _ => False
  | .errNext => allowNext = true
  | .errExit => True
  | .runtime _ => True

/-- Well-formedness of a pattern-action block: patterns may not surface next
(the record loop is not ready to consume it there), bodies may. -/
def wfAction (a : ActionA) : Prop :=
  (match a.pattern with
   | none => True
   | some c => exprOK false c) ∧
  (match a.body with
   | none => True
   | some body => wfStmts true false body)

/-- Well-formedness of the pattern-action list. -/
def wfActions : List ActionA → Prop
  | [] => True
  | a :: rest => wfAction a ∧ wfActions rest

/-- Well-formedness of a list of BEGIN or END blocks (no next, not inside a
loop). -/
def wfBlocks : List (List Stmt) → Prop
  | [] => True
  | blk :: rest => wfStmts false false blk ∧ wfBlocks rest

/-- Well-formedness of a whole program. -/
def wfProg (pr : ProgP) : Prop :=
  wfBlocks pr.beginBlocks ∧ wfActions pr.actions ∧ wfBlocks pr.endBlocks

/-! ### Spec-side definitions and concrete example states

The definitions in this subsection follow the words of the spec (the claimed
invariant and the claimed comparison rule), to be compared against the
embedded source functions above. -/

/-- The invariant claimed by the spec for field writes: the record equals the
fields joined with the current OFS, and NF equals the number of fields. -/
def fieldInv (s : FieldState) : Prop :=
  s.line = String.intercalate s.outputFieldSep s.fields ∧
  s.numFields = s.fields.length

/-- The six comparison operators. -/
def isCmpOp : BinOp → Bool
  | .EQUALS | .NOT_EQUALS | .LESS | .LTE | .GREATER | .GTE => true
  | _ => false

/-- The claimed string-comparison meaning of each comparison operator. -/
def strCmpHolds : BinOp → String → String → Bool
  | .EQUALS, l, r => l == r
  | .NOT_EQUALS, l, r => l != r
  | .LESS, l, r => decide (l < r)
  | .LTE, l, r => decide (l ≤ r)
  | .GREATER, l, r => decide (r < l)
  | .GTE, l, r => decide (r ≤ l)
  | _, _, _ => false

/-- The claimed numeric-comparison meaning of each comparison operator. -/
def numCmpHolds : BinOp → Rat → Rat → Bool
  | .EQUALS, l, r => l == r
  | .NOT_EQUALS, l, r => l != r
  | .LESS, l, r => decide (l < r)
  | .LTE, l, r => decide (l ≤ r)
  | .GREATER, l, r => decide (r < l)
  | .GTE, l, r => decide (r ≤ l)
  | _, _, _ => false

/-- A concrete record/field state used by witnesses and counterexamples: the
record "p q" not yet split, FS = ",", OFS = " ". -/
def exSt : FieldState :=
  { line := "p q", lineIsTrueStr := false, fields := [], fieldsIsTrueStr := [],
    numFields := 0, haveFields := false, fieldSep := ",", outputFieldSep := " " }

/-- A concrete interpreter state used by witnesses and counterexamples, with
one program scalar named "x". -/
def exIst : InterpState :=
  { fieldState := exSt, lineNum := 0, fileLineNum := 0, matchLength := 0,
    matchStart := 0, argc := 1, convertFormat := "%.6g", outputFormat := "%.6g",
    recordSep := "\n", outputRecordSep := "\n", subscriptSep := "\x1c",
    recordTerminator := "", filename := .str "", scalars := ["x"],
    globals := [.null] }

/-- A concrete machine state for the control-flow executor. -/
def exMSt : MState :=
  { exitStatus := 0, arrays := [[]], vars := [], line := "" }

/-- A concrete program for the control-flow executor: BEGIN exits, the single
action executes next, END is an empty block. -/
def exProg : ProgP :=
  { beginBlocks := [[.exitStmt none]],
    actions := [{ pattern := none, body := some [.nextStmt] }],
    endBlocks := [[.blockStmt []]] }

/-! ## Theorems -/

/-- Storing a key makes it found by lookup. -/
theorem alookup_aset (arr : AwkArray) (k : String) (v : Value) :
    alookup (aset arr k v) k = some v := by
  induction arr with
  | nil => simp [aset, alookup]
  | cons p rest ih =>
    obtain ⟨k', v'⟩ := p
    by_cases h : k' = k <;> simp [aset, alookup, h, ih]

/-- Deleting a key makes its lookup fail. -/
theorem alookup_aerase (arr : AwkArray) (k : String) :
    alookup (aerase arr k) k = none := by
  induction arr with
  | nil => rfl
  | cons p rest ih =>
    obtain ⟨k', v'⟩ := p
    simp only [aerase] at ih ⊢
    by_cases h : k' = k <;> simp [List.filter_cons, h, alookup, ih]

/-- C2: the membership test `k in A` leaves the array unchanged, while a read
reference to an absent key inserts the key with the null value and returns
null (here the key is made absent explicitly by deletion, covering every
array and key). -/
theorem c2_in_vs_read_materialization (A : AwkArray) (k : String) :
    (inExprEval A k).2 = A ∧
    getArrayValue (aerase A k) k = (Value.null, aset (aerase A k) k Value.null) ∧
    alookup (aset (aerase A k) k Value.null) k = some Value.null := by
  refine ⟨rfl, ?_, alookup_aset _ _ _⟩
  simp [getArrayValue, alookup_aerase]

/-- C8: division by a value whose numeric form is zero is the runtime error
"division by zero"; division by a non-zero value returns the quotient and
never errors. -/
theorem c8_division_by_zero (cf : String) (l r : Value) :
    (r.asNumber = 0 → evalBinary cf .DIV l r = .error "division by zero") ∧
    (r.asNumber ≠ 0 →
      evalBinary cf .DIV l r = .ok (.num (l.asNumber / r.asNumber))) := by
  constructor <;> intro h <;> simp [evalBinary, h]

/-- C8 witness: 3 / 0 errors with "division by zero", 3 / 2 returns 3/2. -/
theorem c8_division_by_zero_witness :
    evalBinary "%.6g" .DIV (.num 3) (.num 0) = .error "division by zero" ∧
    evalBinary "%.6g" .DIV (.num 3) (.num 2) = .ok (.num (3 / 2)) :=
  ⟨(c8_division_by_zero "%.6g" (.num 3) (.num 0)).1 (by decide),
   (c8_division_by_zero "%.6g" (.num 3) (.num 2)).2 (by decide)⟩

/-- C5: every getline form returns 1 when a line is read (updating the
record via setLine when there is no target, else passing the line to the
target), 0 at end of input, and -1 on a scanner read error; `getline < f` on
a nonexistent file (os.PathError) returns -1 rather than a hard error. -/
theorem c5_getline_results (st : FieldState) (t : Bool) (s : String) :
    evalGetline (.fromMain (.gotRec s)) false st = .ok (.num 1, setLine st s false, none) ∧
    evalGetline (.fromMain (.gotRec s)) true st = .ok (.num 1, st, some s) ∧
    evalGetline (.fromMain .eofMain) t st = .ok (.num 0, st, none) ∧
    evalGetline (.fromMain .readErrMain) t st = .ok (.num (-1), st, none) ∧
    evalGetline (.fromFile (.openedF (.gotLine s))) false st = .ok (.num 1, setLine st s false, none) ∧
    evalGetline (.fromFile (.openedF (.gotLine s))) true st = .ok (.num 1, st, some s) ∧
    evalGetline (.fromFile (.openedF .eofScan)) t st = .ok (.num 0, st, none) ∧
    evalGetline (.fromFile (.openedF .scanErr)) t st = .ok (.num (-1), st, none) ∧
    evalGetline (.fromFile .pathErr) t st = .ok (.num (-1), st, none) ∧
    evalGetline (.fromCommand (.openedP (.gotLine s))) false st = .ok (.num 1, setLine st s false, none) ∧
    evalGetline (.fromCommand (.openedP (.gotLine s))) true st = .ok (.num 1, st, some s) ∧
    evalGetline (.fromCommand (.openedP .eofScan)) t st = .ok (.num 0, st, none) ∧
    evalGetline (.fromCommand (.openedP .scanErr)) t st = .ok (.num (-1), st, none) :=
  ⟨rfl, rfl, rfl, rfl, rfl, rfl, rfl, rfl, rfl, rfl, rfl, rfl, rfl⟩

/-- A key that is absent from the live array and is kept absent by every body
invocation is never visited by the for-in loop. -/
theorem forInVisit_absent_not_visited (body : String → AwkArray → AwkArray)
    (k : String) (hbody : ∀ j a, alookup (body j a) k = none) :
    ∀ (order : List String) (arr : AwkArray) (visited : List String),
      alookup arr k = none → k ∉ visited →
      k ∉ (forInVisit body order arr visited).2 := by
  intro order
  induction order with
  | nil =>
    intro arr visited h1 h2
    simpa [forInVisit] using h2
  | cons j rest ih =>
    intro arr visited h1 h2
    by_cases hlive : (alookup arr j).isSome
    · have hjk : k ≠ j := by
        intro hkj
        rw [← hkj, h1] at hlive
        simp at hlive
      simp only [forInVisit, hlive, if_true]
      exact ih (body j arr) (visited ++ [j]) (hbody j arr)
        (by simp [h2, hjk])
    · simp only [forInVisit, hlive, if_false]
      exact ih arr visited h1 h2

/-- C4 (amended): the for-in loop of the tree-walking interpreter does not
snapshot the keys; a key deleted from the live array before being reached is
not visited.  Concretely: for any iteration order that first visits a
present key j, if the body always leaves key k deleted, then k is never
visited — even when k was present at loop entry. -/
theorem c4_forin_deleted_key_not_visited (body : String → AwkArray → AwkArray)
    (arr : AwkArray) (j k : String) (rest : List String) (v : Value)
    (hjk : j ≠ k) (hj : alookup arr j = some v)
    (hbody : ∀ j' a, alookup (body j' a) k = none) :
    k ∉ (forInVisit body (j :: rest) arr []).2 := by
  have hlive : (alookup arr j).isSome := by simp [hj]
  simp only [forInVisit, hlive, if_true]
  exact forInVisit_absent_not_visited body k hbody rest (body j arr) [j]
    (hbody j arr) (by simp [Ne.symm hjk])

/-- C4 witness: in the array with keys a and b, with iteration order a then
b and a body that deletes b, the key b (present at entry) is not visited. -/
theorem c4_forin_deleted_key_not_visited_witness :
    "b" ∉ (forInVisit (fun _ a => aerase a "b") ["a", "b"]
      [("a", Value.null), ("b", Value.null)] []).2 :=
  c4_forin_deleted_key_not_visited (fun _ a => aerase a "b")
    [("a", Value.null), ("b", Value.null)] "a" "b" ["b"] Value.null
    (by decide) (by decide) (fun _ a => alookup_aerase a "b")

/-- C4 counterexample to the snapshot claim: the key b is present at loop
entry, yet the loop (order a, b; body deletes b) visits only a — a key
deleted during iteration before being reached is not "still visited". -/
theorem c4_forin_snapshot_counterexample :
    "b" ∈ (([("a", Value.null), ("b", Value.null)] : AwkArray).map Prod.fst) ∧
    (forInVisit (fun _ a => aerase a "b") ["a", "b"]
      [("a", Value.null), ("b", Value.null)] []).2 = ["a"] ∧
    "b" ∉ (forInVisit (fun _ a => aerase a "b") ["a", "b"]
      [("a", Value.null), ("b", Value.null)] []).2 := by
  refine ⟨by decide, by decide, by decide⟩

/-- C1 (amended): after a successful write to a field $i with i ≥ 1
(setField) or to NF (setNF), the record equals the fields joined with the
current OFS and NF equals the number of fields. -/
theorem c1_field_write_invariant (s : FieldState) (i : Int) (v : String) (w : Value) :
    (∀ s', 1 ≤ i → setField s i v = .ok s' → fieldInv s') ∧
    (∀ s', setNF s w = .ok s' → fieldInv s') := by
  constructor
  · intro s' hi h
    simp only [setField] at h
    split_ifs at h with h0 hneg hbig
    all_goals try omega
    all_goals cases h
    all_goals exact ⟨rfl, rfl⟩
  · intro s' h
    simp only [setNF] at h
    split_ifs at h with hneg hbig
    all_goals cases h
    all_goals refine ⟨rfl, ?_⟩
    all_goals simp [List.length_take]
    all_goals omega

/-- C1 witness: writing $1 = "z" and NF = 3 on the concrete state exSt both
re-establish the invariant. -/
theorem c1_field_write_invariant_witness :
    fieldInv ⟨"z", true, ["z"], [true], 1, true, ",", " "⟩ ∧
    fieldInv ⟨"p q  ", true, ["p q", "", ""], [false, false, false], 3, true, ",", " "⟩ :=
  ⟨(c1_field_write_invariant exSt 1 "z" (Value.num 3)).1 _ (by norm_num) rfl,
   (c1_field_write_invariant exSt 1 "z" (Value.num 3)).2 _ rfl⟩

/-- C1 counterexample to the claim as stated: the write $0 = "a,b" (setField
with index 0) succeeds, but afterwards the record does not equal the fields
joined with OFS — neither against the stale stored fields nor against the
fields re-split on demand (FS "," differs from OFS " "). -/
theorem c1_field_write_invariant_counterexample :
    setField exSt 0 "a,b" = .ok (setLine exSt "a,b" true) ∧
    ¬ fieldInv (setLine exSt "a,b" true) ∧
    ¬ fieldInv (ensureFields (setLine exSt "a,b" true)) := by
  refine ⟨rfl, ?_, ?_⟩ <;> simp only [fieldInv] <;> decide

/-- C7 (amended): a negative field index is a runtime error for both reads
and writes, and a field index beyond maxFieldIndex is a runtime error for
writes; a read of an index beyond maxFieldIndex is not an error (it returns
a value, the empty string when past the current fields). -/
theorem c7_field_index_errors (s : FieldState) (i : Int) (v : String) :
    (i < 0 → getField s i = .error ("field index negative: " ++ toString i) ∧
      setField s i v = .error ("field index negative: " ++ toString i)) ∧
    (maxFieldIndex < i →
      setField s i v = .error ("field index too large: " ++ toString i) ∧
      ∃ r, getField s i = .ok r) := by
  constructor
  · intro h
    have h0 : ¬ i = 0 := by omega
    constructor
    · simp [getField, h]
    · simp [setField, h, h0]
  · intro h
    have hmax : maxFieldIndex = 1000000 := rfl
    rw [hmax] at h
    have h0 : ¬ i = 0 := by omega
    have hneg : ¬ i < 0 := by omega
    constructor
    · simp [setField, h0, hneg, maxFieldIndex, h]
    · simp only [getField, if_neg hneg, if_neg h0]
      split
      · exact ⟨_, rfl⟩
      · exact ⟨_, rfl⟩

/-- C7 witness: $(-1) errors recoverably on read and write, $1000001 errors
on write and reads back without error. -/
theorem c7_field_index_errors_witness :
    (getField exSt (-1) = .error ("field index negative: " ++ toString (-1 : Int)) ∧
     setField exSt (-1) "v" = .error ("field index negative: " ++ toString (-1 : Int))) ∧
    (setField exSt 1000001 "v" = .error ("field index too large: " ++ toString (1000001 : Int)) ∧
     ∃ r, getField exSt 1000001 = .ok r) :=
  ⟨(c7_field_index_errors exSt (-1) "v").1 (by decide),
   (c7_field_index_errors exSt 1000001 "v").2 (by decide)⟩

/-- C7 counterexample to the claim as stated: reading a field beyond the
maximum field index is not a runtime error — it returns the empty string. -/
theorem c7_huge_read_not_error_counterexample :
    maxFieldIndex < 1000001 ∧
    getField exSt 1000001 = .ok (.str "", ensureFields exSt) :=
  ⟨by decide, rfl⟩

/-- C9: reading $i for 1 ≤ i beyond the current number of fields returns the
explicit empty string without error; the state only materializes the lazy
split (the record, its true-string status, and the ensured fields are
unchanged — ensureFields is idempotent). -/
theorem c9_read_beyond_fields (s : FieldState) (i : Int)
    (h1 : 1 ≤ i) (h2 : ((ensureFields s).fields.length : Int) < i) :
    getField s i = .ok (.str "", ensureFields s) ∧
    (ensureFields s).line = s.line ∧
    (ensureFields s).lineIsTrueStr = s.lineIsTrueStr ∧
    ensureFields (ensureFields s) = ensureFields s := by
  have hneg : ¬ i < 0 := by omega
  have h0 : ¬ i = 0 := by omega
  refine ⟨?_, ?_, ?_, ?_⟩
  · have hlen : (ensureFields s).fields.length < i.toNat := by omega
    simp [getField, hneg, h0, hlen]
  · by_cases hf : s.haveFields <;> simp [ensureFields, hf]
  · by_cases hf : s.haveFields <;> simp [ensureFields, hf]
  · by_cases hf : s.haveFields <;> simp [ensureFields, hf]

/-- C9 witness: on exSt (one field after the split), reading $2 returns the
empty string and only materializes the split. -/
theorem c9_read_beyond_fields_witness :
    getField exSt 2 = .ok (.str "", ensureFields exSt) ∧
    (ensureFields exSt).line = exSt.line ∧
    (ensureFields exSt).lineIsTrueStr = exSt.lineIsTrueStr ∧
    ensureFields (ensureFields exSt) = ensureFields exSt :=
  c9_read_beyond_fields exSt 2 (by decide) (by decide)

/-- C3: every comparison operator compares the CONVFMT string forms when
either operand is a true string and the numeric views otherwise; in
particular two numeric strings compare numerically iff both parse cleanly as
numbers, and lexicographically otherwise. -/
theorem c3_comparison_semantics (cf : String) (op : BinOp) (l r : Value) (s t : String)
    (hop : isCmpOp op = true) :
    evalBinary cf op l r = .ok (boolean (
      if (l.isTrueStr).2 || (r.isTrueStr).2
      then strCmpHolds op (l.asString cf) (r.asString cf)
      else numCmpHolds op (l.isTrueStr).1 (r.isTrueStr).1)) ∧
    (∀ a b : Rat, parseNumClean s = some a → parseNumClean t = some b →
      evalBinary cf op (.numStr s) (.numStr t) = .ok (boolean (numCmpHolds op a b))) ∧
    ((parseNumClean s = none ∨ parseNumClean t = none) →
      evalBinary cf op (.numStr s) (.numStr t) = .ok (boolean (strCmpHolds op s t))) := by
  have key : ∀ l' r' : Value,
      evalBinary cf op l' r' = .ok (boolean (
        if (l'.isTrueStr).2 || (r'.isTrueStr).2
        then strCmpHolds op (l'.asString cf) (r'.asString cf)
        else numCmpHolds op (l'.isTrueStr).1 (r'.isTrueStr).1)) := by
    intro l' r'
    rcases hl : l'.isTrueStr with ⟨ln, lb⟩
    rcases hr : r'.isTrueStr with ⟨rn, rb⟩
    cases op <;> simp_all [evalBinary, strCmpHolds, numCmpHolds, isCmpOp] <;>
      split <;> rfl
  refine ⟨key l r, ?_, ?_⟩
  · intro a b ha hb
    rw [key (.numStr s) (.numStr t)]
    simp [Value.isTrueStr, ha, hb]
  · intro h
    rw [key (.numStr s) (.numStr t)]
    rcases h with h | h
    · simp [Value.isTrueStr, Value.asString, h]
    · simp [Value.isTrueStr, Value.asString, h]

/-- C3 witness: number against string compares as strings; the numeric
strings "10" and "9" compare numerically (10 < 9 is false), while "10x" and
"9" compare lexicographically ("10x" < "9" is true). -/
theorem c3_comparison_semantics_witness :
    evalBinary "%.6g" .LESS (.num 3) (.str "x") = .ok (boolean (
      if ((Value.num 3).isTrueStr).2 || ((Value.str "x").isTrueStr).2
      then strCmpHolds .LESS ((Value.num 3).asString "%.6g") ((Value.str "x").asString "%.6g")
      else numCmpHolds .LESS ((Value.num 3).isTrueStr).1 ((Value.str "x").isTrueStr).1)) ∧
    evalBinary "%.6g" .LESS (.numStr "10") (.numStr "9") = .ok (boolean (numCmpHolds .LESS 10 9)) ∧
    evalBinary "%.6g" .LESS (.numStr "10x") (.numStr "9") = .ok (boolean (strCmpHolds .LESS "10x" "9")) :=
  ⟨(c3_comparison_semantics "%.6g" .LESS (.num 3) (.str "x") "10" "9" rfl).1,
   (c3_comparison_semantics "%.6g" .LESS (.num 3) (.str "x") "10" "9" rfl).2.1 10 9
     (by decide) (by decide),
   (c3_comparison_semantics "%.6g" .LESS (.num 3) (.str "x") "10x" "9" rfl).2.2
     (.inl (by decide))⟩

/-- C10 (amended): a Config.Vars name that is neither special nor a scalar
referenced by the program is silently ignored (no error, no state change);
an assignment through setVarByName can only fail for the names FS, RS
(invalid multi-character regex) and NF (negative or too large), and an
invalid multi-character FS regex does fail. -/
theorem c10_setvar_by_name (regexOK : String → Bool) (st : InterpState) (name v : String) :
    (specialVarOf name = none → st.scalars.findIdx? (· == name) = none →
      setVarByName regexOK st name v = .ok st) ∧
    (name ≠ "FS" → name ≠ "RS" → name ≠ "NF" →
      ∀ e, setVarByName regexOK st name v ≠ .error e) ∧
    (name = "FS" → 1 < v.length → regexOK v = false →
      setVarByName regexOK st name v = .error ("invalid regex: " ++ v)) := by
  refine ⟨?_, ?_, ?_⟩
  · intro hsv hidx
    simp [setVarByName, hsv, hidx]
  · intro hf hr hn e
    rcases hsv : specialVarOf name with _ | sv
    · rcases hidx : st.scalars.findIdx? (· == name) with _ | i <;>
        simp [setVarByName, hsv, hidx]
    · have hname : name = svName sv := by
        have h1 := List.find?_some hsv
        rw [beq_iff_eq] at h1
        exact h1.symm
      simp only [setVarByName, hsv]
      cases sv
      case NF => simp [svName] at hname; exact absurd hname hn
      case FS => simp [svName] at hname; exact absurd hname hf
      case RS => simp [svName] at hname; exact absurd hname hr
      all_goals simp [setVarSpecial]
  · intro hf hlen hbad
    subst hf
    have hfs : specialVarOf "FS" = some .FS := rfl
    simp [setVarByName, hfs, setVarSpecial, Value.asString, hlen, hbad]

/-- C10 witness: the unknown name FOO is ignored without error; NR never
errors; a multi-character FS that fails to compile errors. -/
theorem c10_setvar_by_name_witness :
    setVarByName (fun _ => true) exIst "FOO" "1" = .ok exIst ∧
    (setVarByName (fun _ => true) exIst "NR" "7" ≠ .error "boom") ∧
    setVarByName (fun _ => false) exIst "FS" "ab" = .error ("invalid regex: " ++ "ab") :=
  ⟨(c10_setvar_by_name (fun _ => true) exIst "FOO" "1").1 (by decide) (by decide),
   (c10_setvar_by_name (fun _ => true) exIst "NR" "7").2.1 (by decide) (by decide)
     (by decide) "boom",
   (c10_setvar_by_name (fun _ => false) exIst "FS" "ab").2.2 rfl (by decide) rfl⟩

/-- C10 counterexample to "initialization only fails when the value assigned
to FS or RS is an invalid regex": assigning NF = -1 through Config.Vars
fails with "NF set to negative value", regardless of any regex. -/
theorem c10_nf_negative_counterexample :
    setVarByName (fun _ => true) exIst "NF" "-1" =
      .error ("NF set to negative value: " ++ toString (-1 : Int)) := by
  rfl

/-- An error an expression may surface is an error any statement may
return. -/
theorem errOKStmt_of_errOKExpr {an il : Bool} {e : ExecErr} (h : errOKExpr an e) :
    errOKStmt an il e := by
  cases e <;> simp_all [errOKExpr, errOKStmt]

/-- An error escaping a loop body that is neither break nor continue is
allowed outside the loop as well. -/
theorem errOKStmt_escape {an il : Bool} {e : ExecErr} (h : errOKStmt an true e)
    (hnb : e = .errBreak → False) (hnc : e = .errContinue → False) :
    errOKStmt an il e := by
  cases e <;> simp_all [errOKStmt]

/-- An error allowed outside any loop is allowed anywhere. -/
theorem errOKStmt_weaken {an il : Bool} {e : ExecErr} (h : errOKStmt an false e) :
    errOKStmt an il e := by
  cases e <;> simp_all [errOKStmt]

/-- The statement executor only returns errors allowed by well-formedness:
break/continue only from inside a loop, next only where allowed, a
returnValue never; a for-in loop additionally consumes break and continue
itself. -/
theorem exec_errs : ∀ f : Nat,
    (∀ s st an il err st', wfStmt an il s →
      execStmt f s st = (some err, st') → errOKStmt an il err) ∧
    (∀ l st an il err st', wfStmts an il l →
      execStmts f l st = (some err, st') → errOKStmt an il err) ∧
    (∀ cond post body st an il err st', wfStmt an il (.forStmt cond post body) →
      execForPost f cond post body st = (some err, st') → errOKStmt an il err) ∧
    (∀ keys vn ai body st an err st', wfStmts an true body →
      execForIn f keys vn ai body st = (some err, st') → errOKStmt an false err) := by
  intro f
  induction f with
  | zero =>
    refine ⟨?_, ?_, ?_, ?_⟩
    · intro s st an il err st' _ hex
      simp only [execStmt] at hex
      cases hex
      trivial
    · intro l st an il err st' _ hex
      simp only [execStmts] at hex
      cases hex
      trivial
    · intro cond post body st an il err st' _ hex
      simp only [execForPost] at hex
      cases hex
      trivial
    · intro keys vn ai body st an err st' _ hex
      simp only [execForIn] at hex
      cases hex
      trivial
  | succ f ih =>
    obtain ⟨ihS, ihL, ihP, ihF⟩ := ih
    refine ⟨?_, ?_, ?_, ?_⟩
    · intro s st an il err st' hwf hex
      cases s with
      | exprStmt e =>
        simp only [execStmt] at hex
        split at hex
        · simp at hex
        · rename_i x e0 st0 heq
          cases hex
          simp only [wfStmt] at hwf
          exact errOKStmt_of_errOKExpr (hwf _ _ _ heq)
      | ifStmt cond body els =>
        simp only [wfStmt] at hwf
        obtain ⟨hc, hb, he⟩ := hwf
        simp only [execStmt] at hex
        split at hex
        · rename_i x e0 st0 heq
          cases hex
          exact errOKStmt_of_errOKExpr (hc _ _ _ heq)
        · rename_i x v st0 heq
          split at hex
          · exact ihL _ _ _ _ _ _ hb hex
          · exact ihL _ _ _ _ _ _ he hex
      | whileStmt cond body =>
        have hw := hwf
        simp only [wfStmt] at hw
        obtain ⟨hc, hb⟩ := hw
        simp only [execStmt] at hex
        split at hex
        · rename_i x e0 st0 heq
          cases hex
          exact errOKStmt_of_errOKExpr (hc _ _ _ heq)
        · rename_i x v st0 heq
          split at hex
          · split at hex
            · simp at hex
            · exact ihS _ _ _ _ _ _ hwf hex
            · exact ihS _ _ _ _ _ _ hwf hex
            · rename_i x2 e0 st2 hnb hnc heqb
              cases hex
              exact errOKStmt_escape (ihL _ _ _ _ _ _ hb heqb) hnb hnc
          · simp at hex
      | doWhileStmt body cond =>
        have hw := hwf
        simp only [wfStmt] at hw
        obtain ⟨hc, hb⟩ := hw
        simp only [execStmt] at hex
        split at hex
        · simp at hex
        · exact ihS _ _ _ _ _ _ hwf hex
        · rename_i x e0 st2 hnb hnc heqb
          cases hex
          exact errOKStmt_escape (ihL _ _ _ _ _ _ hb heqb) hnb hnc
        · rename_i x st2 heqb
          split at hex
          · rename_i x2 e0 st3 heqc
            cases hex
            exact errOKStmt_of_errOKExpr (hc _ _ _ heqc)
          · rename_i x2 v st3 heqc
            split at hex
            · exact ihS _ _ _ _ _ _ hwf hex
            · simp at hex
      | forStmt cond post body =>
        have hw := hwf
        unfold wfStmt at hw
        obtain ⟨hc, hp, hb⟩ := hw
        simp only [execStmt] at hex
        split at hex
        · rename_i x e0 st0 heqc
          cases hex
          split at heqc
          · simp at heqc
          · rename_i c
            split at heqc
            · rename_i x2 e1 st1 heq1
              cases heqc
              exact errOKStmt_of_errOKExpr (hc _ _ _ heq1)
            · simp at heqc
        · simp at hex
        · rename_i x st0 heqc
          split at hex
          · simp at hex
          · exact ihP _ _ _ _ _ _ _ _ hwf hex
          · exact ihP _ _ _ _ _ _ _ _ hwf hex
          · rename_i x2 e0 st2 hnb hnc heqb
            cases hex
            exact errOKStmt_escape (ihL _ _ _ _ _ _ hb heqb) hnb hnc
      | forInStmt vn ai body =>
        simp only [wfStmt] at hwf
        simp only [execStmt] at hex
        exact errOKStmt_weaken (ihF _ _ _ _ _ _ _ _ hwf hex)
      | breakStmt =>
        simp only [wfStmt] at hwf
        simp only [execStmt] at hex
        cases hex
        simp [errOKStmt, hwf]
      | continueStmt =>
        simp only [wfStmt] at hwf
        simp only [execStmt] at hex
        cases hex
        simp [errOKStmt, hwf]
      | nextStmt =>
        simp only [wfStmt] at hwf
        simp only [execStmt] at hex
        cases hex
        simp [errOKStmt, hwf]
      | exitStmt status =>
        simp only [execStmt] at hex
        split at hex
        · cases hex
          trivial
        · rename_i e
          split at hex
          · rename_i x e0 st0 heq
            cases hex
            unfold wfStmt at hwf
            exact errOKStmt_of_errOKExpr (hwf _ _ _ heq)
          · cases hex
            trivial
      | returnStmt val =>
        simp only [wfStmt] at hwf
      | blockStmt body =>
        simp only [wfStmt] at hwf
        simp only [execStmt] at hex
        exact ihL _ _ _ _ _ _ hwf hex
      | deleteStmt ai key =>
        simp only [execStmt] at hex
        split at hex
        · simp at hex
        · rename_i e
          split at hex
          · rename_i x e0 st0 heq
            cases hex
            unfold wfStmt at hwf
            exact errOKStmt_of_errOKExpr (hwf _ _ _ heq)
          · simp at hex
    · intro l st an il err st' hwf hex
      cases l with
      | nil =>
        simp only [execStmts] at hex
        simp at hex
      | cons s rest =>
        simp only [wfStmts] at hwf
        obtain ⟨hws, hwr⟩ := hwf
        simp only [execStmts] at hex
        split at hex
        · exact ihL _ _ _ _ _ _ hwr hex
        · rename_i x e0 st0 heq
          cases hex
          exact ihS _ _ _ _ _ _ hws heq
    · intro cond post body st an il err st' hwf hex
      have hw := hwf
      unfold wfStmt at hw
      obtain ⟨hc, hp, hb⟩ := hw
      simp only [execForPost] at hex
      split at hex
      · exact ihS _ _ _ _ _ _ hwf hex
      · rename_i ps
        split at hex
        · rename_i x e0 st0 heq
          cases hex
          exact ihS _ _ _ _ _ _ hp heq
        · exact ihS _ _ _ _ _ _ hwf hex
    · intro keys vn ai body st an err st' hwf hex
      cases keys with
      | nil =>
        simp only [execForIn] at hex
        simp at hex
      | cons k rest =>
        simp only [execForIn] at hex
        split at hex
        · split at hex
          · simp at hex
          · exact ihF _ _ _ _ _ _ _ _ hwf hex
          · rename_i x e0 st2 hnb hnc heqb
            cases hex
            exact errOKStmt_escape (ihL _ _ _ _ _ _ hwf heqb) hnb hnc
          · exact ihF _ _ _ _ _ _ _ _ hwf hex
        · exact ihF _ _ _ _ _ _ _ _ hwf hex

/-- An error allowed for an expression where next is forbidden is allowed
for any statement position. -/
theorem errOKStmt_of_errOKExpr_false {an il : Bool} {e : ExecErr}
    (h : errOKExpr false e) : errOKStmt an il e := by
  cases e <;> simp_all [errOKExpr, errOKStmt]

/-- An action-level error that is not errNext is allowed at the top level. -/
theorem errOKStmt_drop_next {e : ExecErr} (h : errOKStmt true false e)
    (hn : e = .errNext → False) : errOKStmt false false e := by
  cases e <;> simp_all [errOKStmt]

/-- A top-level-allowed error other than errExit is not a sentinel. -/
theorem not_sentinel_of_errOK {e : ExecErr} (h : errOKStmt false false e)
    (hx : ¬ e = .errExit) : isSentinelErr e = false := by
  cases e <;> simp_all [errOKStmt, isSentinelErr]

/-- Errors escaping the per-record action loop are errNext, errExit or
runtime errors. -/
theorem execOneRecord_errs : ∀ (f : Nat) (actions : List ActionA) (st : MState)
    (err : ExecErr) (st' : MState), wfActions actions →
    execOneRecord f actions st = (some err, st') → errOKStmt true false err := by
  intro f
  induction f with
  | zero =>
    intro actions st err st' _ hex
    simp only [execOneRecord] at hex
    cases hex
    trivial
  | succ f ih =>
    intro actions st err st' hwf hex
    cases actions with
    | nil =>
      simp only [execOneRecord] at hex
      simp at hex
    | cons a rest =>
      simp only [wfActions] at hwf
      obtain ⟨hwa, hwr⟩ := hwf
      obtain ⟨pat, bod⟩ := a
      unfold wfAction at hwa
      obtain ⟨hwp, hwb⟩ := hwa
      simp only [execOneRecord] at hex
      split at hex
      · rename_i x e0 st0 heqp
        cases hex
        split at heqp
        · simp at heqp
        · rename_i c
          split at heqp
          · rename_i x2 e1 st1 heq1
            cases heqp
            exact errOKStmt_of_errOKExpr_false (hwp _ _ _ heq1)
          · simp at heqp
      · exact ih _ _ _ _ hwr hex
      · rename_i x st0 heqp
        split at hex
        · exact ih _ _ _ _ hwr hex
        · rename_i body
          split at hex
          · cases hex
            trivial
          · rename_i x2 e0 st2 hnn heqb
            cases hex
            exact (exec_errs f).2.1 _ _ _ _ _ _ hwb heqb
          · exact ih _ _ _ _ hwr hex

/-- Errors escaping the record loop are errExit or runtime errors (errNext
is consumed by skipping to the next record). -/
theorem execActions_errs : ∀ (f : Nat) (actions : List ActionA)
    (records : List String) (st : MState) (err : ExecErr) (st' : MState),
    wfActions actions →
    execActions f actions records st = (some err, st') → errOKStmt false false err := by
  intro f
  induction f with
  | zero =>
    intro actions records st err st' _ hex
    simp only [execActions] at hex
    cases hex
    trivial
  | succ f ih =>
    intro actions records st err st' hwf hex
    cases records with
    | nil =>
      simp only [execActions] at hex
      simp at hex
    | cons r rs =>
      simp only [execActions] at hex
      split at hex
      · exact ih _ _ _ _ _ hwf hex
      · rename_i x e0 st0 hnn heq0
        cases hex
        exact errOKStmt_drop_next (execOneRecord_errs f _ _ _ _ hwf heq0) hnn
      · exact ih _ _ _ _ _ hwf hex

/-- Errors escaping the BEGIN/END block runner are errExit or runtime
errors. -/
theorem execBeginEnd_errs : ∀ (f : Nat) (blocks : List (List Stmt)) (st : MState)
    (err : ExecErr) (st' : MState), wfBlocks blocks →
    execBeginEnd f blocks st = (some err, st') → errOKStmt false false err := by
  intro f
  induction f with
  | zero =>
    intro blocks st err st' _ hex
    simp only [execBeginEnd] at hex
    cases hex
    trivial
  | succ f ih =>
    intro blocks st err st' hwf hex
    cases blocks with
    | nil =>
      simp only [execBeginEnd] at hex
      simp at hex
    | cons blk rest =>
      simp only [wfBlocks] at hwf
      obtain ⟨hwb, hwr⟩ := hwf
      simp only [execBeginEnd] at hex
      split at hex
      · exact ih _ _ _ _ hwr hex
      · rename_i x e0 st0 heq
        cases hex
        exact (exec_errs f).2.1 _ _ _ _ _ _ hwb heq

/-- C6: for a well-formed program (break/continue inside loops, next only in
action bodies, return only in function bodies) the control-flow sentinels
break, continue, next, return and exit are consumed inside the interpreter
and never returned to the host by ExecProgram. -/
theorem c6_sentinels_not_leaked (f : Nat) (pr : ProgP) (records : List String)
    (st : MState) (hwf : wfProg pr) :
    leakedSentinel (execProgramM f pr records st).1 = false := by
  obtain ⟨hwb, hwa, hwe⟩ := hwf
  unfold execProgramM
  rcases h1 : execBeginEnd f pr.beginBlocks st with ⟨e1, st1⟩
  have hb1 : ∀ e, e1 = some e → errOKStmt false false e := fun e he =>
    execBeginEnd_errs f _ _ _ _ hwb (he ▸ h1)
  dsimp only
  split
  · rename_i hc
    cases e1 with
    | none => simp at hc
    | some e1' =>
      simp at hc
      simpa [leakedSentinel] using not_sentinel_of_errOK (hb1 e1' rfl) hc
  · rename_i hc
    split
    · simp [leakedSentinel]
    · rcases h2 : (if e1 ≠ some ExecErr.errExit
          then execActions f pr.actions records st1
          else (none, st1)) with ⟨e2, st2⟩
      have hb2 : ∀ e, e2 = some e → errOKStmt false false e := by
        intro e he
        by_cases hexit : e1 ≠ some ExecErr.errExit
        · rw [if_pos hexit] at h2
          exact execActions_errs f _ _ _ _ _ hwa (he ▸ h2)
        · rw [if_neg hexit] at h2
          cases h2
          cases he
      dsimp only
      split
      · rename_i hc2
        cases e2 with
        | none => simp at hc2
        | some e2' =>
          simp at hc2
          simpa [leakedSentinel] using not_sentinel_of_errOK (hb2 e2' rfl) hc2
      · rename_i hc2
        rcases h3 : execBeginEnd f pr.endBlocks st2 with ⟨e3, st3⟩
        have hb3 : ∀ e, e3 = some e → errOKStmt false false e := fun e he =>
          execBeginEnd_errs f _ _ _ _ hwe (he ▸ h3)
        dsimp only
        split
        · rename_i hc3
          cases e3 with
          | none => simp at hc3
          | some e3' =>
            simp at hc3
            simpa [leakedSentinel] using not_sentinel_of_errOK (hb3 e3' rfl) hc3
        · simp [leakedSentinel]

/-- C6 witness: a concrete program (BEGIN exits, the single action executes
next, an empty END block) returns no sentinel to the host. -/
theorem c6_sentinels_not_leaked_witness :
    leakedSentinel (execProgramM 10 exProg ["r1"] exMSt).1 = false :=
  c6_sentinels_not_leaked 10 exProg ["r1"] exMSt
    (by refine ⟨⟨?_, trivial⟩, ⟨⟨trivial, ?_⟩, trivial⟩, ⟨?_, trivial⟩⟩ <;>
      simp [wfStmts, wfStmt, wfAction])

end GoAwk
